import Mathlib

/-!
Verification of the HyperLogLog sketch from `be/src/olap/hll.h`.

The C++ class `HyperLogLog` is embedded shallowly: the dense register array
becomes a function `Fin HLL_REGISTERS_COUNT → Nat`, the explicit buffer a
`List Nat` (the defined prefix of the allocated 320-slot buffer), and the
object state a four-field structure mirroring `_type`, `_explicit_data_num`,
`_explicit_data`, `_registers` (with `Option` for possibly-null pointers).
-/

/- Constants from hll.h (lines 34-45). -/

def HLL_COLUMN_PRECISION : Nat := 14

def HLL_ZERO_COUNT_BITS : Nat := 64 - HLL_COLUMN_PRECISION

def HLL_EXPLICIT_INT64_NUM : Nat := 160

def HLL_EXPLICIT_INT64_NUM_DOUBLE : Nat := HLL_EXPLICIT_INT64_NUM * 2

def HLL_SPARSE_THRESHOLD : Nat := 4096

def HLL_REGISTERS_COUNT : Nat := 16 * 1024

/-- Count of trailing zero bits of a natural number, the embedding of the
`__builtin_ctzl` intrinsic used by `_update_registers`.  (`ctz 0` is
undefined in C; here it is 0, but every call site passes a value with
bit `HLL_ZERO_COUNT_BITS` forced to 1, hence nonzero.) -/
def ctz (n : Nat) : Nat :=
  if n % 2 = 1 then 0
  else if h : n = 0 then 0
  else ctz (n / 2) + 1
termination_by n
decreasing_by exact Nat.div_lt_self (Nat.pos_of_ne_zero h) (by norm_num)

/-- Embedding of `HyperLogLog::_update_registers` (hll.h lines 307-316):
`idx = hash_value % HLL_REGISTERS_COUNT`; shift right by `PRECISION`;
force bit `HLL_ZERO_COUNT_BITS`; store the max of the old register and
`ctz + 1` (truncated to `uint8_t`, hence the `% 256`). -/
def update_registers (regs : Fin HLL_REGISTERS_COUNT → Nat) (hash_value : Nat) :
    Fin HLL_REGISTERS_COUNT → Nat :=
  let idx := hash_value % HLL_REGISTERS_COUNT
  let shifted := (hash_value >>> HLL_COLUMN_PRECISION) ||| (1 <<< HLL_ZERO_COUNT_BITS)
  let first_one_bit := (ctz shifted + 1) % 256
  fun i =>
    if (i : Nat) = idx then (if regs i > first_one_bit then regs i else first_one_bit)
    else regs i

/-- Embedding of `HyperLogLog::_merge_registers` (hll.h lines 319-323):
`registers[i] = registers[i] < other[i] ? other[i] : registers[i]` for
every index. -/
def merge_registers (regs other : Fin HLL_REGISTERS_COUNT → Nat) :
    Fin HLL_REGISTERS_COUNT → Nat :=
  fun i => if regs i < other i then other i else regs i

theorem ctz_le_of_testBit (k : Nat) :
    ∀ n : Nat, n.testBit k = true → ctz n ≤ k := by
  induction k with
  | zero =>
    intro n hn
    rw [Nat.testBit_zero] at hn
    rw [ctz]
    simp [of_decide_eq_true hn]
  | succ k ih =>
    intro n hn
    rw [ctz]
    by_cases hodd : n % 2 = 1
    · simp [hodd]
    · by_cases h0 : n = 0
      · simp [hodd, h0]
      · simp only [hodd, h0, if_false, dif_neg]
        have htb : (n / 2).testBit k = true := by
          rw [Nat.testBit_succ] at hn
          exact hn
        exact Nat.succ_le_succ (ih (n / 2) htb)

theorem ctz_shifted_le (h : Nat) :
    ctz ((h >>> 14) ||| 2 ^ 50) ≤ 50 := by
  apply ctz_le_of_testBit
  rw [Nat.testBit_lor, Nat.testBit_two_pow_self, Bool.or_true]

theorem update_registers_eq (regs : Fin HLL_REGISTERS_COUNT → Nat) (h : Nat)
    (i : Fin HLL_REGISTERS_COUNT) :
    update_registers regs h i =
      if (i : Nat) = h % HLL_REGISTERS_COUNT then
        max (regs i)
          ((ctz ((h >>> HLL_COLUMN_PRECISION) ||| (1 <<< HLL_ZERO_COUNT_BITS)) + 1) % 256)
      else regs i := by
  show (if (i : Nat) = h % HLL_REGISTERS_COUNT then
      (if regs i > (ctz ((h >>> HLL_COLUMN_PRECISION) ||| (1 <<< HLL_ZERO_COUNT_BITS)) + 1) % 256
        then regs i
        else (ctz ((h >>> HLL_COLUMN_PRECISION) ||| (1 <<< HLL_ZERO_COUNT_BITS)) + 1) % 256)
      else regs i) = _
  by_cases hc : (i : Nat) = h % HLL_REGISTERS_COUNT
  · rw [if_pos hc, if_pos hc]
    rcases Nat.lt_or_ge
        ((ctz ((h >>> HLL_COLUMN_PRECISION) ||| (1 <<< HLL_ZERO_COUNT_BITS)) + 1) % 256)
        (regs i) with hlt | hge
    · rw [if_pos hlt, Nat.max_eq_left (Nat.le_of_lt hlt)]
    · rw [if_neg (by omega), Nat.max_eq_right hge]
  · rw [if_neg hc, if_neg hc]

theorem shifted_literal (h : Nat) :
    (h >>> HLL_COLUMN_PRECISION) ||| (1 <<< HLL_ZERO_COUNT_BITS) = (h >>> 14) ||| 2 ^ 50 := by
  norm_num [HLL_COLUMN_PRECISION, HLL_ZERO_COUNT_BITS, Nat.shiftLeft_eq]

/-- C1: for every 64-bit hash `h` and register array, `_update_registers h`
sets register `h % 16384` to `max old (ctz ((h >>> 14) ||| 2^50) + 1)`, a
value in `[1, 51]`, leaves every other register unchanged, and keeps all
registers within a byte. -/
theorem update_registers_spec (regs : Fin HLL_REGISTERS_COUNT → Nat) (h : Nat)
    (hh : h < 2 ^ 64) (hregs : ∀ i, regs i < 256) :
    1 ≤ ctz ((h >>> 14) ||| 2 ^ 50) + 1 ∧
    ctz ((h >>> 14) ||| 2 ^ 50) + 1 ≤ 51 ∧
    (∀ hidx : h % 16384 < HLL_REGISTERS_COUNT,
      update_registers regs h ⟨h % 16384, hidx⟩ =
        max (regs ⟨h % 16384, hidx⟩) (ctz ((h >>> 14) ||| 2 ^ 50) + 1)) ∧
    (∀ i : Fin HLL_REGISTERS_COUNT, (i : Nat) ≠ h % 16384 →
      update_registers regs h i = regs i) ∧
    (∀ i : Fin HLL_REGISTERS_COUNT, update_registers regs h i < 256) := by
  have hle : ctz ((h >>> 14) ||| 2 ^ 50) ≤ 50 := ctz_shifted_le h
  have hfob : (ctz ((h >>> 14) ||| 2 ^ 50) + 1) % 256 =
      ctz ((h >>> 14) ||| 2 ^ 50) + 1 := Nat.mod_eq_of_lt (by omega)
  refine ⟨Nat.le_add_left 1 _, by omega, ?_, ?_, ?_⟩
  · intro hidx
    rw [update_registers_eq, shifted_literal, hfob,
      if_pos (show ((⟨h % 16384, hidx⟩ : Fin HLL_REGISTERS_COUNT) : Nat) =
        h % HLL_REGISTERS_COUNT from rfl)]
  · intro i hi
    rw [update_registers_eq,
      if_neg (show ¬((i : Nat) = h % HLL_REGISTERS_COUNT) from fun hc => hi hc)]
  · intro i
    rw [update_registers_eq, shifted_literal, hfob]
    by_cases hc : (i : Nat) = h % HLL_REGISTERS_COUNT
    · rw [if_pos hc]
      exact Nat.max_lt.mpr ⟨hregs i, by omega⟩
    · rw [if_neg hc]
      exact hregs i

theorem update_registers_spec_witness :
    ((5 : Nat) < 2 ^ 64 ∧
      ∀ i : Fin HLL_REGISTERS_COUNT, (fun _ : Fin HLL_REGISTERS_COUNT => (0 : Nat)) i < 256) ∧
    (1 ≤ ctz (((5 : Nat) >>> 14) ||| 2 ^ 50) + 1 ∧
    ctz (((5 : Nat) >>> 14) ||| 2 ^ 50) + 1 ≤ 51 ∧
    (∀ hidx : (5 : Nat) % 16384 < HLL_REGISTERS_COUNT,
      update_registers (fun _ => 0) 5 ⟨5 % 16384, hidx⟩ =
        max ((fun _ : Fin HLL_REGISTERS_COUNT => (0 : Nat)) ⟨5 % 16384, hidx⟩)
          (ctz (((5 : Nat) >>> 14) ||| 2 ^ 50) + 1)) ∧
    (∀ i : Fin HLL_REGISTERS_COUNT, (i : Nat) ≠ (5 : Nat) % 16384 →
      update_registers (fun _ => 0) 5 i = (fun _ : Fin HLL_REGISTERS_COUNT => (0 : Nat)) i) ∧
    (∀ i : Fin HLL_REGISTERS_COUNT, update_registers (fun _ => 0) 5 i < 256)) :=
  ⟨⟨by norm_num, fun i => by norm_num⟩,
    update_registers_spec (fun _ => 0) 5 (by norm_num) (fun i => by norm_num)⟩

/-- C2: `_merge_registers` is the element-wise maximum of the two register
arrays, and as a binary operation it is commutative, associative and
idempotent. -/
theorem merge_registers_spec :
    (∀ a b : Fin HLL_REGISTERS_COUNT → Nat, ∀ i, merge_registers a b i = max (a i) (b i)) ∧
    (∀ a b : Fin HLL_REGISTERS_COUNT → Nat, merge_registers a b = merge_registers b a) ∧
    (∀ a b c : Fin HLL_REGISTERS_COUNT → Nat,
      merge_registers (merge_registers a b) c = merge_registers a (merge_registers b c)) ∧
    (∀ a : Fin HLL_REGISTERS_COUNT → Nat, merge_registers a a = a) := by
  have hmax : ∀ a b : Fin HLL_REGISTERS_COUNT → Nat, ∀ i,
      merge_registers a b i = max (a i) (b i) := by
    intro a b i
    show (if a i < b i then b i else a i) = max (a i) (b i)
    rcases Nat.lt_or_ge (a i) (b i) with hlt | hge
    · rw [if_pos hlt, Nat.max_eq_right (Nat.le_of_lt hlt)]
    · rw [if_neg (by omega), Nat.max_eq_left hge]
  refine ⟨hmax, ?_, ?_, ?_⟩
  · intro a b
    funext i
    simp only [hmax]
    exact Nat.max_comm _ _
  · intro a b c
    funext i
    simp only [hmax]
    exact Nat.max_assoc _ _ _
  · intro a
    funext i
    simp only [hmax]
    exact Nat.max_self _

/- Explicit set: `HyperLogLog::_explicit_data_insert` (hll.h lines 325-349). -/

/-- The downward scan of `_explicit_data_insert`: starting at index `i - 1`
(the argument is `i`, the number of slots still to examine, so the first
probe is slot `i - 1`), walk toward the head; on an element equal to `data`
report `none` (duplicate, "no change"); on an element less than `data`
stop and return `some` of the insert position; past the head return
`some 0`. -/
def explicit_scan (l : List Nat) (data : Nat) : Nat → Option Nat
  | 0 => some 0
  | i + 1 =>
    match l[i]? with
    | some x =>
      if x = data then none
      else if x < data then some (i + 1)
      else explicit_scan l data i
    | none => some 0

/-- Embedding of `HyperLogLog::_explicit_data_insert`: scan from the tail
for the insert position; on a duplicate return `false` and leave the
buffer alone; otherwise memmove the tail one slot right, write `data`
into the gap, and return `true`. -/
def explicit_data_insert (l : List Nat) (data : Nat) : Bool × List Nat :=
  match explicit_scan l data l.length with
  | none => (false, l)
  | some i => (true, l.take i ++ data :: l.drop i)

theorem sorted_take_lt (l : List Nat) (hs : List.Sorted (· < ·) l) (i : Nat)
    (hi : i < l.length) : ∀ x ∈ l.take i, x < l[i] := by
  have hp : List.Pairwise (· < ·) (l.take i ++ l.drop i) := by
    rw [List.take_append_drop]; exact hs
  have hcross := (List.pairwise_append.mp hp).2.2
  intro x hx
  apply hcross x hx
  rw [List.drop_eq_getElem_cons hi]
  exact List.mem_cons_self _ _

theorem explicit_scan_sorted (l : List Nat) (v : Nat) (hs : List.Sorted (· < ·) l) :
    ∀ i, i ≤ l.length → (∀ j, ∀ hj : j < l.length, i ≤ j → v < l[j]) →
      explicit_scan l v i =
        if v ∈ l.take i then none
        else some ((l.take i).countP (fun x => decide (x < v))) := by
  intro i
  induction i with
  | zero => intro _ _; simp [explicit_scan]
  | succ i ih =>
    intro hle hsuf
    have hi : i < l.length := by omega
    have hts : l.take (i + 1) = l.take i ++ [l[i]] := by
      rw [List.take_succ, List.getElem?_eq_getElem hi]
      rfl
    simp only [explicit_scan, List.getElem?_eq_getElem hi]
    rcases lt_trichotomy (l[i]) v with hlt | heq | hgt
    · rw [if_neg (show ¬(l[i] = v) from by omega), if_pos hlt]
      have hall : ∀ x ∈ l.take (i + 1), x < v := by
        rw [hts]
        intro x hx
        rcases List.mem_append.mp hx with hx' | hx'
        · exact lt_trans (sorted_take_lt l hs i hi x hx') hlt
        · rw [List.mem_singleton.mp hx']; exact hlt
      rw [if_neg (fun hmem => absurd (hall v hmem) (lt_irrefl v))]
      congr 1
      rw [List.countP_eq_length.mpr (fun a ha => decide_eq_true (hall a ha)),
        List.length_take]
      omega
    · have hmem : v ∈ l.take (i + 1) := by
        rw [hts]
        exact List.mem_append.mpr (Or.inr (by rw [← heq]; exact List.mem_singleton_self _))
      rw [if_pos heq, if_pos hmem]
    · rw [if_neg (show ¬(l[i] = v) from by omega),
        if_neg (show ¬(l[i] < v) from by omega)]
      have hsuf' : ∀ j, ∀ hj : j < l.length, i ≤ j → v < l[j] := by
        intro j hj hij
        rcases Nat.eq_or_lt_of_le hij with rfl | hlt'
        · exact hgt
        · exact hsuf j hj hlt'
      rw [ih (by omega) hsuf']
      have hmm : (v ∈ l.take (i + 1)) ↔ v ∈ l.take i := by
        rw [hts, List.mem_append, List.mem_singleton]
        constructor
        · rintro (hv | hv)
          · exact hv
          · exact absurd hv (by omega)
        · exact Or.inl
      have hcc : (l.take (i + 1)).countP (fun x => decide (x < v)) =
          (l.take i).countP (fun x => decide (x < v)) := by
        rw [hts, List.countP_append, List.countP_cons]
        simp [Nat.not_lt.mpr (Nat.le_of_lt hgt)]
      by_cases hmem : v ∈ l.take i
      · rw [if_pos hmem, if_pos (hmm.mpr hmem)]
      · rw [if_neg hmem, if_neg (fun hx => hmem (hmm.mp hx)), hcc]

theorem explicit_scan_eq (l : List Nat) (v : Nat) (hs : List.Sorted (· < ·) l) :
    explicit_scan l v l.length =
      if v ∈ l then none else some (l.countP (fun x => decide (x < v))) := by
  have := explicit_scan_sorted l v hs l.length (Nat.le_refl _)
    (fun j hj hle => absurd hj (by omega))
  rwa [List.take_length] at this

theorem countP_take_drop (l : List Nat) (hs : List.Sorted (· < ·) l) (v : Nat) :
    (∀ x ∈ l.take (l.countP (fun x => decide (x < v))), x < v) ∧
    (∀ x ∈ l.drop (l.countP (fun x => decide (x < v))), v ≤ x) := by
  induction l with
  | nil => simp
  | cons a t ih =>
    have hhead : ∀ y ∈ t, a < y := List.rel_of_sorted_cons hs
    have hst : List.Sorted (· < ·) t := (List.sorted_cons.mp hs).2
    obtain ⟨iht, ihd⟩ := ih hst
    by_cases ha : a < v
    · rw [List.countP_cons]
      simp only [decide_eq_true ha, if_pos]
      rw [List.take_succ_cons, List.drop_succ_cons]
      refine ⟨?_, ihd⟩
      intro x hx
      rcases List.mem_cons.mp hx with rfl | hx'
      · exact ha
      · exact iht x hx'
    · have hc0 : t.countP (fun x => decide (x < v)) = 0 :=
        List.countP_eq_zero.mpr (fun y hy => by
          have := hhead y hy
          simp only [decide_eq_true_eq]
          omega)
      have hca : (a :: t).countP (fun x => decide (x < v)) = 0 := by
        rw [List.countP_cons, hc0]
        simp [ha]
      rw [hca]
      refine ⟨by simp, ?_⟩
      intro x hx
      rcases List.mem_cons.mp (by simpa using hx) with rfl | hx'
      · omega
      · have := hhead x hx'
        omega

/-- C3: for a strictly ascending explicit buffer of fewer than 320 distinct
64-bit hashes, `_explicit_data_insert v` is a no-op returning `false` when
`v` is already present; otherwise it returns `true` and the buffer gains
exactly `v`, staying strictly ascending and duplicate-free with the count
incremented. -/
theorem explicit_data_insert_spec (l : List Nat) (v : Nat)
    (hs : List.Sorted (· < ·) l) (hlen : l.length < HLL_EXPLICIT_INT64_NUM_DOUBLE)
    (hl64 : ∀ x ∈ l, x < 2 ^ 64) (hv64 : v < 2 ^ 64) :
    (v ∈ l → explicit_data_insert l v = (false, l)) ∧
    (v ∉ l →
      (explicit_data_insert l v).1 = true ∧
      (explicit_data_insert l v).2.length = l.length + 1 ∧
      List.Sorted (· < ·) (explicit_data_insert l v).2 ∧
      (explicit_data_insert l v).2.Nodup ∧
      ∀ x, x ∈ (explicit_data_insert l v).2 ↔ x ∈ l ∨ x = v) := by
  constructor
  · intro hin
    unfold explicit_data_insert
    rw [explicit_scan_eq l v hs, if_pos hin]
  · intro hout
    unfold explicit_data_insert
    rw [explicit_scan_eq l v hs, if_neg hout]
    have hcle : l.countP (fun x => decide (x < v)) ≤ l.length :=
      List.countP_le_length (fun x => decide (x < v))
    obtain ⟨htake, hdrop'⟩ := countP_take_drop l hs v
    have hdrop : ∀ x ∈ l.drop (l.countP (fun x => decide (x < v))), v < x := by
      intro x hx
      rcases Nat.eq_or_lt_of_le (hdrop' x hx) with heq | hlt
      · exact absurd (heq ▸ List.mem_of_mem_drop hx) hout
      · exact hlt
    have hsorted : List.Sorted (· < ·)
        (l.take (l.countP (fun x => decide (x < v))) ++
          v :: l.drop (l.countP (fun x => decide (x < v)))) := by
      apply List.pairwise_append.mpr
      refine ⟨List.Pairwise.sublist (List.take_sublist _ _) hs, ?_, ?_⟩
      · apply List.pairwise_cons.mpr
        exact ⟨hdrop, List.Pairwise.sublist (List.drop_sublist _ _) hs⟩
      · intro x hx y hy
        rcases List.mem_cons.mp hy with rfl | hy'
        · exact htake x hx
        · exact lt_trans (htake x hx) (hdrop y hy')
    refine ⟨rfl, ?_, hsorted, ?_, ?_⟩
    · simp only [List.length_append, List.length_cons, List.length_take, List.length_drop]
      omega
    · exact hsorted.imp (fun h => Nat.ne_of_lt h)
    · intro x
      have hmem : (x ∈ l) ↔
          x ∈ l.take (l.countP (fun y => decide (y < v))) ++
            l.drop (l.countP (fun y => decide (y < v))) := by
        rw [List.take_append_drop]
      rw [hmem]
      simp only [List.mem_append, List.mem_cons]
      tauto

theorem explicit_data_insert_spec_witness :
    (List.Sorted (· < ·) ([3, 7] : List Nat) ∧
      ([3, 7] : List Nat).length < HLL_EXPLICIT_INT64_NUM_DOUBLE ∧
      (∀ x ∈ ([3, 7] : List Nat), x < 2 ^ 64) ∧ (5 : Nat) < 2 ^ 64) ∧
    ((5 ∈ ([3, 7] : List Nat) → explicit_data_insert [3, 7] 5 = (false, [3, 7])) ∧
     (5 ∉ ([3, 7] : List Nat) →
      (explicit_data_insert [3, 7] 5).1 = true ∧
      (explicit_data_insert [3, 7] 5).2.length = ([3, 7] : List Nat).length + 1 ∧
      List.Sorted (· < ·) (explicit_data_insert [3, 7] 5).2 ∧
      (explicit_data_insert [3, 7] 5).2.Nodup ∧
      ∀ x, x ∈ (explicit_data_insert [3, 7] 5).2 ↔ x ∈ ([3, 7] : List Nat) ∨ x = 5)) :=
  ⟨⟨by decide, by decide, by decide, by decide⟩,
    explicit_data_insert_spec [3, 7] 5 (by decide) (by decide) (by decide) (by decide)⟩

/- Object state and lifecycle (hll.h lines 75-300). -/

/-- The `HllDataType` enum (hll.h lines 75-80). -/
inductive HllDataType
  | HLL_DATA_EMPTY
  | HLL_DATA_EXPLICIT
  | HLL_DATA_SPARSE
  | HLL_DATA_FULL
deriving DecidableEq, Repr

open HllDataType

/-- The fields of a `HyperLogLog` object: `_type`, `_explicit_data_num`,
`_explicit_data` (the defined prefix of the 320-slot buffer, `none` for a
null pointer) and `_registers` (`none` for a null pointer). -/
structure HLLState where
  ty : HllDataType
  explicit_data_num : Nat
  explicit_data : Option (List Nat)
  registers : Option (Fin HLL_REGISTERS_COUNT → Nat)

/-- A default-constructed `HyperLogLog`: `HLL_DATA_EMPTY`, zero count, both
pointers null (hll.h lines 293-300 member initializers). -/
def emptyState : HLLState := ⟨HLL_DATA_EMPTY, 0, none, none⟩

/-- Representation invariant of a `HyperLogLog` object: the payload pointer
matching the tag is allocated and the other is null, as maintained by every
member function. -/
def WF (s : HLLState) : Prop :=
  match s.ty with
  | HLL_DATA_EMPTY => s.explicit_data_num = 0 ∧ s.explicit_data = none ∧ s.registers = none
  | HLL_DATA_EXPLICIT => s.registers = none ∧
      ∃ l, s.explicit_data = some l ∧ l.length = s.explicit_data_num
  | HLL_DATA_SPARSE => s.explicit_data = none ∧ s.explicit_data_num = 0 ∧
      ∃ r, s.registers = some r
  | HLL_DATA_FULL => s.explicit_data = none ∧ s.explicit_data_num = 0 ∧
      ∃ r, s.registers = some r

/-- Embedding of the move constructor (hll.h lines 114-137): the new object
starts default-initialized, copies `other._type`, then transfers the payload
of the active case and resets only the fields the `switch` touches on
`other`.  Returns (constructed object, moved-from `other`). -/
def moveConstruct (other : HLLState) : HLLState × HLLState :=
  match other.ty with
  | HLL_DATA_EMPTY => (⟨other.ty, 0, none, none⟩, other)
  | HLL_DATA_EXPLICIT =>
      (⟨other.ty, other.explicit_data_num, other.explicit_data, none⟩,
       ⟨HLL_DATA_EMPTY, 0, none, other.registers⟩)
  | HLL_DATA_SPARSE =>
      (⟨other.ty, 0, none, other.registers⟩,
       ⟨HLL_DATA_EMPTY, other.explicit_data_num, other.explicit_data, none⟩)
  | HLL_DATA_FULL =>
      (⟨other.ty, 0, none, other.registers⟩,
       ⟨HLL_DATA_EMPTY, other.explicit_data_num, other.explicit_data, none⟩)

/-- Embedding of move assignment past the self-check (hll.h lines 139-175):
both of the target's buffers are deleted and nulled, its count zeroed, the
tag copied, then the payload transferred exactly as in the move
constructor.  Returns (assigned-to object, moved-from `other`). -/
def moveAssignDistinct (t other : HLLState) : HLLState × HLLState :=
  match other.ty with
  | HLL_DATA_EMPTY => (⟨other.ty, 0, none, none⟩, other)
  | HLL_DATA_EXPLICIT =>
      (⟨other.ty, other.explicit_data_num, other.explicit_data, none⟩,
       ⟨HLL_DATA_EMPTY, 0, none, other.registers⟩)
  | HLL_DATA_SPARSE =>
      (⟨other.ty, 0, none, other.registers⟩,
       ⟨HLL_DATA_EMPTY, other.explicit_data_num, other.explicit_data, none⟩)
  | HLL_DATA_FULL =>
      (⟨other.ty, 0, none, other.registers⟩,
       ⟨HLL_DATA_EMPTY, other.explicit_data_num, other.explicit_data, none⟩)

/-- Embedding of the full move-assignment operator including the
`this != &other` guard: `same` states that both sides are the same object,
in which case the body is skipped entirely. -/
def moveAssign (same : Bool) (t other : HLLState) : HLLState × HLLState :=
  if same then (t, other) else moveAssignDistinct t other

/-- Embedding of the copy constructor (hll.h lines 91-112): copies the tag,
duplicates the active payload (for EXPLICIT, `memcpy` of the first
`_explicit_data_num` slots, modelled by `List.take`), and leaves the other
fields default-initialized. -/
def copyConstruct (other : HLLState) : HLLState :=
  match other.ty with
  | HLL_DATA_EMPTY => ⟨other.ty, 0, none, none⟩
  | HLL_DATA_EXPLICIT =>
      ⟨other.ty, other.explicit_data_num,
        (other.explicit_data).map (List.take other.explicit_data_num), none⟩
  | HLL_DATA_SPARSE => ⟨other.ty, 0, none, other.registers⟩
  | HLL_DATA_FULL => ⟨other.ty, 0, none, other.registers⟩

/-- Embedding of copy assignment past the self-check (hll.h lines 177-211):
delete both buffers, zero the count, copy the tag, then duplicate the
active payload as in the copy constructor.  `other` is `const` and is not
touched. -/
def copyAssignDistinct (t other : HLLState) : HLLState :=
  match other.ty with
  | HLL_DATA_EMPTY => ⟨other.ty, 0, none, none⟩
  | HLL_DATA_EXPLICIT =>
      ⟨other.ty, other.explicit_data_num,
        (other.explicit_data).map (List.take other.explicit_data_num), none⟩
  | HLL_DATA_SPARSE => ⟨other.ty, 0, none, other.registers⟩
  | HLL_DATA_FULL => ⟨other.ty, 0, none, other.registers⟩

/-- Embedding of the full copy-assignment operator including the
`this != &other` guard. -/
def copyAssign (same : Bool) (t other : HLLState) : HLLState :=
  if same then t else copyAssignDistinct t other

/-- Embedding of `HyperLogLog::clear` (hll.h lines 217-224): set the tag to
EMPTY, delete and null both buffers, zero the count. -/
def clear (s : HLLState) : HLLState :=
  { s with
    ty := HLL_DATA_EMPTY
    registers := none
    explicit_data := none
    explicit_data_num := 0 }

/-- Embedding of `HyperLogLog::memory_consumed` (hll.h lines 240-245):
`sizeof(*this)` plus `HLL_EXPLICIT_INT64_NUM_DOUBLE` if `_explicit_data`
is non-null plus `HLL_REGISTERS_COUNT` if `_registers` is non-null.
(`sizeof(*this)` is target-dependent and passed in as a parameter.) -/
def memory_consumed (sizeof_this : Nat) (s : HLLState) : Nat :=
  let size := sizeof_this
  let size := if s.explicit_data.isSome then size + HLL_EXPLICIT_INT64_NUM_DOUBLE else size
  let size := if s.registers.isSome then size + HLL_REGISTERS_COUNT else size
  size

/-- C6 (evaluation at the failing input): on a sketch holding an explicit
buffer, `memory_consumed` adds `HLL_EXPLICIT_INT64_NUM_DOUBLE` = 320 — the
slot count, not the 320 * 8 = 2560 heap bytes the buffer occupies — while
the register branch does add the full 16384 bytes. -/
theorem memory_consumed_bug :
    memory_consumed 48 ⟨HLL_DATA_EXPLICIT, 1, some [7], none⟩ = 48 + 320 ∧
    48 + 320 ≠ 48 + 320 * 8 ∧
    memory_consumed 48 ⟨HLL_DATA_FULL, 0, none, some (fun _ => 0)⟩ = 48 + 16384 :=
  ⟨rfl, by decide, rfl⟩

/-- C7: for every well-formed sketch, move construction and move assignment
leave the moved-from object EMPTY (tag `HLL_DATA_EMPTY`, both payload
pointers null, explicit count 0) while the destination holds the source's
former tag and payload. -/
theorem move_spec (s t : HLLState) (hwf : WF s) :
    (moveConstruct s).1 = s ∧ (moveConstruct s).2 = emptyState ∧
    (moveAssign false t s).1 = s ∧ (moveAssign false t s).2 = emptyState := by
  obtain ⟨ty, num, data, regs⟩ := s
  cases ty
  case HLL_DATA_EMPTY =>
    obtain ⟨h1, h2, h3⟩ := hwf
    subst h1; subst h2; subst h3
    exact ⟨rfl, rfl, rfl, rfl⟩
  case HLL_DATA_EXPLICIT =>
    obtain ⟨h1, l, h2, h3⟩ := hwf
    subst h1; subst h2
    exact ⟨rfl, rfl, rfl, rfl⟩
  case HLL_DATA_SPARSE =>
    obtain ⟨h1, h2, r, h3⟩ := hwf
    subst h1; subst h2; subst h3
    exact ⟨rfl, rfl, rfl, rfl⟩
  case HLL_DATA_FULL =>
    obtain ⟨h1, h2, r, h3⟩ := hwf
    subst h1; subst h2; subst h3
    exact ⟨rfl, rfl, rfl, rfl⟩

theorem move_spec_witness :
    WF ⟨HLL_DATA_EXPLICIT, 1, some [5], none⟩ ∧
    ((moveConstruct ⟨HLL_DATA_EXPLICIT, 1, some [5], none⟩).1 =
        ⟨HLL_DATA_EXPLICIT, 1, some [5], none⟩ ∧
     (moveConstruct ⟨HLL_DATA_EXPLICIT, 1, some [5], none⟩).2 = emptyState ∧
     (moveAssign false emptyState ⟨HLL_DATA_EXPLICIT, 1, some [5], none⟩).1 =
        ⟨HLL_DATA_EXPLICIT, 1, some [5], none⟩ ∧
     (moveAssign false emptyState ⟨HLL_DATA_EXPLICIT, 1, some [5], none⟩).2 = emptyState) :=
  ⟨⟨rfl, [5], rfl, rfl⟩,
    move_spec ⟨HLL_DATA_EXPLICIT, 1, some [5], none⟩ emptyState ⟨rfl, [5], rfl, rfl⟩⟩

/-- C8: for every well-formed sketch, copy construction and copy assignment
produce an object with the same tag and equal payload contents, and (the
source being taken by `const` reference and the payload duplicated by
`new` + `memcpy`) the source is not modified. -/
theorem copy_spec (s t : HLLState) (hwf : WF s) :
    copyConstruct s = s ∧ copyAssign false t s = s := by
  obtain ⟨ty, num, data, regs⟩ := s
  cases ty
  case HLL_DATA_EMPTY =>
    obtain ⟨h1, h2, h3⟩ := hwf
    subst h1; subst h2; subst h3
    exact ⟨rfl, rfl⟩
  case HLL_DATA_EXPLICIT =>
    obtain ⟨h1, l, h2, h3⟩ := hwf
    subst h1; subst h2
    have h4 : l.length = num := h3
    have htake : l.take num = l := by rw [← h4]; simp
    have hmap : (some l).map (List.take num) = some l := by simp [htake]
    constructor
    · show (⟨HLL_DATA_EXPLICIT, num, (some l).map (List.take num), none⟩ : HLLState) = _
      rw [hmap]
    · show (⟨HLL_DATA_EXPLICIT, num, (some l).map (List.take num), none⟩ : HLLState) = _
      rw [hmap]
  case HLL_DATA_SPARSE =>
    obtain ⟨h1, h2, r, h3⟩ := hwf
    subst h1; subst h2; subst h3
    exact ⟨rfl, rfl⟩
  case HLL_DATA_FULL =>
    obtain ⟨h1, h2, r, h3⟩ := hwf
    subst h1; subst h2; subst h3
    exact ⟨rfl, rfl⟩

theorem copy_spec_witness :
    WF ⟨HLL_DATA_EXPLICIT, 1, some [5], none⟩ ∧
    (copyConstruct ⟨HLL_DATA_EXPLICIT, 1, some [5], none⟩ =
        ⟨HLL_DATA_EXPLICIT, 1, some [5], none⟩ ∧
     copyAssign false emptyState ⟨HLL_DATA_EXPLICIT, 1, some [5], none⟩ =
        ⟨HLL_DATA_EXPLICIT, 1, some [5], none⟩) :=
  ⟨⟨rfl, [5], rfl, rfl⟩,
    copy_spec ⟨HLL_DATA_EXPLICIT, 1, some [5], none⟩ emptyState ⟨rfl, [5], rfl, rfl⟩⟩

/-- C9: `clear` returns any sketch to the EMPTY state (tag
`HLL_DATA_EMPTY`, both buffers released and null, count 0) and is
idempotent. -/
theorem clear_spec (s : HLLState) :
    clear s = emptyState ∧ clear (clear s) = clear s :=
  ⟨rfl, rfl⟩

/-- C10: both assignment operators guard on `this != &other`, so
self-assignment (the `same` flag set) is a no-op for every sketch. -/
theorem self_assign_spec (s : HLLState) :
    moveAssign true s s = (s, s) ∧ copyAssign true s s = s :=
  ⟨rfl, rfl⟩

/- Codec.  `HyperLogLog::is_valid` and `HyperLogLog::deserialize` are only
declared in hll.h (lines 253-254, 266-269); their bodies live in an
implementation file that is not part of the provided sources, so they are
modelled from the spec (sections 4.5 and 7). -/

/-- Little-endian decode of four bytes into an unsigned 32-bit value. -/
def decodeU32 (b0 b1 b2 b3 : Nat) : Nat :=
  b0 + 256 * b1 + 256 ^ 2 * b2 + 256 ^ 3 * b3

/-- Two's-complement reading of an unsigned 32-bit value as the signed
`SparseLengthValueType` (`int32_t`, hll.h line 227). -/
def toInt32 (n : Nat) : Int :=
  if n % 2 ^ 32 < 2 ^ 31 then ((n % 2 ^ 32 : Nat) : Int)
  else ((n % 2 ^ 32 : Nat) : Int) - 2 ^ 32

/-- Modelled from the spec: `is_valid` (spec section 4.5.2) reads byte 0 and
returns true iff it is one of {0,1,2,3} and the length is plausible for
that tag — EMPTY: length at least 1; EXPLICIT: length = 2 + 8 * bytes[1];
SPARSE: length = 5 + 3 * k for the signed 32-bit little-endian count k;
FULL: length at least 1 + REGISTERS. -/
def is_valid (bytes : List Nat) : Bool :=
  match bytes with
  | [] => false
  | t :: rest =>
    if t = 0 then true
    else if t = 1 then
      match rest with
      | n :: _ => decide (1 + rest.length = 2 + 8 * n)
      | [] => false
    else if t = 2 then
      match rest with
      | b0 :: b1 :: b2 :: b3 :: _ =>
        decide ((1 + rest.length : Int) = 5 + 3 * toInt32 (decodeU32 b0 b1 b2 b3))
      | _ => false
    else if t = 3 then decide (16385 ≤ 1 + rest.length)
    else false

/-- The validity condition exactly as the claim states it, phrased over
indexed bytes. -/
def is_valid_cond (bytes : List Nat) : Prop :=
  1 ≤ bytes.length ∧
  (bytes.getD 0 0 = 0 ∨
   (bytes.getD 0 0 = 1 ∧ 2 ≤ bytes.length ∧ bytes.length = 2 + 8 * bytes.getD 1 0) ∨
   (bytes.getD 0 0 = 2 ∧ 5 ≤ bytes.length ∧
     (bytes.length : Int) = 5 + 3 * toInt32 (decodeU32 (bytes.getD 1 0) (bytes.getD 2 0)
       (bytes.getD 3 0) (bytes.getD 4 0))) ∨
   (bytes.getD 0 0 = 3 ∧ 16385 ≤ bytes.length))

/-- Modelled from the spec: decode of the EXPLICIT payload — consecutive
8-byte little-endian hashes (spec section 4.5.1). -/
def parseExplicitHashes : List Nat → Option (List Nat)
  | [] => some []
  | b0 :: b1 :: b2 :: b3 :: b4 :: b5 :: b6 :: b7 :: rest =>
    (parseExplicitHashes rest).map
      (fun hs => (b0 + 256 * b1 + 256 ^ 2 * b2 + 256 ^ 3 * b3 + 256 ^ 4 * b4 +
        256 ^ 5 * b5 + 256 ^ 6 * b6 + 256 ^ 7 * b7) :: hs)
  | _ => none

/-- Modelled from the spec: decode of the SPARSE payload — records of a
16-bit little-endian register index and a one-byte register value, failing
on an index not below `REGISTERS` (spec sections 4.5.1 and 7). -/
def parseSparseRecords : List Nat → Option (List (Nat × Nat))
  | [] => some []
  | i0 :: i1 :: v :: rest =>
    if i0 + 256 * i1 ≥ HLL_REGISTERS_COUNT then none
    else (parseSparseRecords rest).map (fun rs => (i0 + 256 * i1, v) :: rs)
  | _ => none

/-- Dense register array built from decoded sparse records, zero
everywhere else. -/
def materializeRegisters (recs : List (Nat × Nat)) : Fin HLL_REGISTERS_COUNT → Nat :=
  fun i => (((recs.find? (fun r => r.1 == (i : Nat))).map Prod.snd).getD 0)

/-- Modelled from the spec: the decoder behind `deserialize` / `from_bytes`
(spec sections 4.5.1, 4.5.2 and 7) — reads the type tag and reconstructs
the sketch, returning `none` exactly on malformed input: unknown tag,
declared length not matching the remaining bytes, or a SPARSE record with
index at or above `REGISTERS`.  A FULL payload needs at least `REGISTERS`
bytes after the tag and fills the array from them. -/
def decodeSketch (bytes : List Nat) : Option HLLState :=
  match bytes with
  | [] => none
  | t :: rest =>
    if t = 0 then some emptyState
    else if t = 1 then
      match rest with
      | n :: payload =>
        if 2 + 8 * n = 2 + payload.length then
          match parseExplicitHashes payload with
          | some hashes => some ⟨HLL_DATA_EXPLICIT, n, some hashes, none⟩
          | none => none
        else none
      | [] => none
    else if t = 2 then
      match rest with
      | b0 :: b1 :: b2 :: b3 :: payload =>
        if ((5 + payload.length : Nat) : Int) = 5 + 3 * toInt32 (decodeU32 b0 b1 b2 b3) then
          match parseSparseRecords payload with
          | some recs => some ⟨HLL_DATA_SPARSE, 0, none, some (materializeRegisters recs)⟩
          | none => none
        else none
      | _ => none
    else if t = 3 then
      if 16385 ≤ 1 + rest.length then
        some ⟨HLL_DATA_FULL, 0, none, some (fun i => rest.getD (i : Nat) 0)⟩
      else none
    else none

/-- Modelled from the spec: `deserialize` with the normative contract of
spec sections 4.5.2 and 7 — on malformed input report failure and leave
the target untouched; otherwise replace the target's state entirely with
the decoded sketch.  The boolean mirrors the C++ return value. -/
def deserialize (target : HLLState) (bytes : List Nat) : HLLState × Bool :=
  match decodeSketch bytes with
  | none => (target, false)
  | some s => (s, true)

/-- A SPARSE payload contains a record whose decoded 16-bit index is at or
above `REGISTERS`. -/
def hasBadIndex : List Nat → Bool
  | i0 :: i1 :: _ :: rest =>
    decide (HLL_REGISTERS_COUNT ≤ i0 + 256 * i1) || hasBadIndex rest
  | _ => false

/-- The failure condition of the claim: unknown type tag, declared length
not matching the remaining bytes, or a SPARSE record with index at or
above 16384. -/
def deserializeFailCond (bytes : List Nat) : Prop :=
  bytes.length = 0 ∨
  (¬ (bytes.getD 0 0 = 0 ∨ bytes.getD 0 0 = 1 ∨ bytes.getD 0 0 = 2 ∨ bytes.getD 0 0 = 3)) ∨
  (bytes.getD 0 0 = 1 ∧ bytes.length ≠ 2 + 8 * bytes.getD 1 0) ∨
  (bytes.getD 0 0 = 2 ∧
    ((bytes.length : Int) ≠ 5 + 3 * toInt32 (decodeU32 (bytes.getD 1 0) (bytes.getD 2 0)
        (bytes.getD 3 0) (bytes.getD 4 0)) ∨
      hasBadIndex (bytes.drop 5) = true)) ∨
  (bytes.getD 0 0 = 3 ∧ bytes.length < 16385)

/-- C5: `is_valid` returns true exactly when byte 0 is one of {0,1,2,3} and
the buffer length is plausible for that tag: EMPTY needs length at least 1;
EXPLICIT needs length at least 2 and equal to 2 + 8 * bytes[1]; SPARSE
needs length at least 5 and equal to 5 + 3 * k for the decoded 32-bit
count k; FULL needs length at least 16385. -/
theorem is_valid_spec (bytes : List Nat) :
    is_valid bytes = true ↔ is_valid_cond bytes := by
  match bytes with
  | [] => simp [is_valid, is_valid_cond]
  | 0 :: rest => simp [is_valid, is_valid_cond]
  | 1 :: rest =>
    match rest with
    | [] => simp [is_valid, is_valid_cond]
    | n :: rest2 =>
      simp [is_valid, is_valid_cond]
      omega
  | 2 :: rest =>
    match rest with
    | [] => simp [is_valid, is_valid_cond]
    | [b0] => simp [is_valid, is_valid_cond]
    | [b0, b1] => simp [is_valid, is_valid_cond]
    | [b0, b1, b2] => simp [is_valid, is_valid_cond]
    | b0 :: b1 :: b2 :: b3 :: rest2 =>
      simp only [is_valid, is_valid_cond, List.getD_cons_zero, List.getD_cons_succ,
        List.length_cons, decide_eq_true_eq]
      push_cast
      simp only [decide_eq_true_eq, true_and, false_and, false_or, or_false, and_true]
      omega
  | 3 :: rest =>
    simp [is_valid, is_valid_cond]
    omega
  | (t + 4) :: rest =>
    have h0 : ¬(t + 4 = 0) := by omega
    have h1 : ¬(t + 4 = 1) := by omega
    have h2 : ¬(t + 4 = 2) := by omega
    have h3 : ¬(t + 4 = 3) := by omega
    simp [is_valid, is_valid_cond, h0, h1, h2, h3]

theorem toInt32_of_lt (n : Nat) (h : n < 2 ^ 31) : toInt32 n = (n : Int) := by
  unfold toInt32
  rw [Nat.mod_eq_of_lt (by omega)]
  rw [if_pos h]

theorem parseExplicitHashes_total : ∀ l : List Nat, l.length % 8 = 0 →
    ∃ hs, parseExplicitHashes l = some hs
  | [] => fun _ => ⟨[], rfl⟩
  | b0 :: b1 :: b2 :: b3 :: b4 :: b5 :: b6 :: b7 :: rest => fun h => by
    obtain ⟨hs, hhs⟩ := parseExplicitHashes_total rest
      (by simp only [List.length_cons] at h; omega)
    refine ⟨(b0 + 256 * b1 + 256 ^ 2 * b2 + 256 ^ 3 * b3 + 256 ^ 4 * b4 +
      256 ^ 5 * b5 + 256 ^ 6 * b6 + 256 ^ 7 * b7) :: hs, ?_⟩
    simp only [parseExplicitHashes, hhs, Option.map_some']
  | [a] => fun h => by simp at h
  | [a, b] => fun h => by simp at h
  | [a, b, c] => fun h => by simp at h
  | [a, b, c, d] => fun h => by simp at h
  | [a, b, c, d, e] => fun h => by simp at h
  | [a, b, c, d, e, f] => fun h => by simp at h
  | [a, b, c, d, e, f, g] => fun h => by simp at h

theorem parseSparseRecords_none_iff : ∀ l : List Nat, l.length % 3 = 0 →
    (parseSparseRecords l = none ↔ hasBadIndex l = true)
  | [] => fun _ => by simp [parseSparseRecords, hasBadIndex]
  | i0 :: i1 :: v :: rest => fun h => by
    have ih := parseSparseRecords_none_iff rest
      (by simp only [List.length_cons] at h; omega)
    by_cases hbad : i0 + 256 * i1 ≥ HLL_REGISTERS_COUNT
    · simp [parseSparseRecords, hasBadIndex, hbad]
    · simp [parseSparseRecords, hasBadIndex, hbad, ih]
  | [a] => fun h => by simp at h
  | [a, b] => fun h => by simp at h

theorem decodeSketch_none_iff (bytes : List Nat) (hb : ∀ b ∈ bytes, b < 256) :
    decodeSketch bytes = none ↔ deserializeFailCond bytes := by
  match bytes, hb with
  | [], _ =>
    exact iff_of_true rfl (Or.inl rfl)
  | 0 :: rest, _ =>
    refine iff_of_false (by simp [decodeSketch]) ?_
    rintro (h | h | h | h | h)
    · simp at h
    · exact h (Or.inl rfl)
    · simp at h
    · simp at h
    · simp at h
  | 1 :: rest, _ =>
    match rest with
    | [] =>
      refine iff_of_true (by simp [decodeSketch]) ?_
      refine Or.inr (Or.inr (Or.inl ⟨rfl, ?_⟩))
      simp
    | n :: payload =>
      by_cases hlen : 2 + 8 * n = 2 + payload.length
      · obtain ⟨hs, hhs⟩ := parseExplicitHashes_total payload (by omega)
        refine iff_of_false (by simp [decodeSketch, hlen, hhs]) ?_
        rintro (h | h | h | h | h)
        · simp at h
        · exact h (Or.inr (Or.inl rfl))
        · obtain ⟨-, h2⟩ := h
          simp only [List.getD_cons_zero, List.getD_cons_succ, List.length_cons] at h2
          omega
        · obtain ⟨h1, -⟩ := h
          simp at h1
        · obtain ⟨h1, -⟩ := h
          simp at h1
      · refine iff_of_true (by simp [decodeSketch, hlen]) ?_
        refine Or.inr (Or.inr (Or.inl ⟨rfl, ?_⟩))
        simp only [List.getD_cons_zero, List.getD_cons_succ, List.length_cons]
        omega
  | 2 :: rest, hb =>
    match rest, hb with
    | [], _ =>
      refine iff_of_true (by simp [decodeSketch]) ?_
      refine Or.inr (Or.inr (Or.inr (Or.inl ⟨rfl, Or.inl ?_⟩)))
      norm_num [decodeU32, toInt32]
    | [b0], hb =>
      have hb0 : b0 < 256 := hb b0 (by simp)
      refine iff_of_true (by simp [decodeSketch]) ?_
      refine Or.inr (Or.inr (Or.inr (Or.inl ⟨rfl, Or.inl ?_⟩)))
      simp only [List.getD_cons_zero, List.getD_cons_succ, List.getD_nil,
        List.length_cons, List.length_nil]
      rw [toInt32_of_lt _ (show decodeU32 b0 0 0 0 < 2 ^ 31 by simp [decodeU32]; omega)]
      simp only [decodeU32]
      push_cast
      omega
    | [b0, b1], hb =>
      have hb0 : b0 < 256 := hb b0 (by simp)
      have hb1 : b1 < 256 := hb b1 (by simp)
      refine iff_of_true (by simp [decodeSketch]) ?_
      refine Or.inr (Or.inr (Or.inr (Or.inl ⟨rfl, Or.inl ?_⟩)))
      simp only [List.getD_cons_zero, List.getD_cons_succ, List.getD_nil,
        List.length_cons, List.length_nil]
      rw [toInt32_of_lt _ (show decodeU32 b0 b1 0 0 < 2 ^ 31 by simp [decodeU32]; omega)]
      simp only [decodeU32]
      push_cast
      omega
    | [b0, b1, b2], hb =>
      have hb0 : b0 < 256 := hb b0 (by simp)
      have hb1 : b1 < 256 := hb b1 (by simp)
      have hb2 : b2 < 256 := hb b2 (by simp)
      refine iff_of_true (by simp [decodeSketch]) ?_
      refine Or.inr (Or.inr (Or.inr (Or.inl ⟨rfl, Or.inl ?_⟩)))
      simp only [List.getD_cons_zero, List.getD_cons_succ, List.getD_nil,
        List.length_cons, List.length_nil]
      rw [toInt32_of_lt _ (show decodeU32 b0 b1 b2 0 < 2 ^ 31 by simp [decodeU32]; omega)]
      simp only [decodeU32]
      push_cast
      omega
    | b0 :: b1 :: b2 :: b3 :: payload, hb =>
      by_cases hlen : ((5 + payload.length : Nat) : Int) =
          5 + 3 * toInt32 (decodeU32 b0 b1 b2 b3)
      · have h3 : payload.length % 3 = 0 := by
          have h' := hlen
          push_cast at h'
          omega
        have hiff := parseSparseRecords_none_iff payload h3
        cases hp : parseSparseRecords payload with
        | none =>
          refine iff_of_true (by simp [decodeSketch, hlen, hp]) ?_
          refine Or.inr (Or.inr (Or.inr (Or.inl ⟨rfl, Or.inr ?_⟩)))
          show hasBadIndex ((2 :: b0 :: b1 :: b2 :: b3 :: payload).drop 5) = true
          simp only [List.drop_succ_cons, List.drop_zero]
          exact hiff.mp hp
        | some recs =>
          have hnb : hasBadIndex payload = false := by
            rcases hx : hasBadIndex payload
            · rfl
            · rw [hiff.mpr hx] at hp
              exact absurd hp (by simp)
          refine iff_of_false (by simp [decodeSketch, hlen, hp]) ?_
          rintro (h | h | h | h | h)
          · simp at h
          · exact h (Or.inr (Or.inr (Or.inl rfl)))
          · obtain ⟨h1, -⟩ := h
            simp at h1
          · obtain ⟨-, h2 | h2⟩ := h
            · apply h2
              simp only [List.getD_cons_zero, List.getD_cons_succ, List.length_cons]
              push_cast
              push_cast at hlen
              omega
            · simp only [List.drop_succ_cons, List.drop_zero] at h2
              rw [hnb] at h2
              exact absurd h2 (by simp)
          · obtain ⟨h1, -⟩ := h
            simp at h1
      · refine iff_of_true ?_ ?_
        · simp only [decodeSketch]
          simp
          intro hx
          exfalso
          apply hlen
          push_cast
          omega
        · refine Or.inr (Or.inr (Or.inr (Or.inl ⟨rfl, Or.inl ?_⟩)))
          intro heq
          apply hlen
          simp only [List.getD_cons_zero, List.getD_cons_succ, List.length_cons] at heq
          push_cast at heq ⊢
          omega
  | 3 :: rest, _ =>
    by_cases hlen : 16385 ≤ 1 + rest.length
    · refine iff_of_false (by simp [decodeSketch, hlen]) ?_
      rintro (h | h | h | h | h)
      · simp at h
      · exact h (Or.inr (Or.inr (Or.inr rfl)))
      · obtain ⟨h1, -⟩ := h
        simp at h1
      · obtain ⟨h1, -⟩ := h
        simp at h1
      · obtain ⟨-, h2⟩ := h
        simp only [List.length_cons] at h2
        omega
    · refine iff_of_true (by simp [decodeSketch, hlen]) ?_
      refine Or.inr (Or.inr (Or.inr (Or.inr ⟨rfl, ?_⟩)))
      simp only [List.length_cons]
      omega
  | (t + 4) :: rest, _ =>
    have h0 : ¬(t + 4 = 0) := by omega
    have h1 : ¬(t + 4 = 1) := by omega
    have h2 : ¬(t + 4 = 2) := by omega
    have h3 : ¬(t + 4 = 3) := by omega
    refine iff_of_true (by simp [decodeSketch, h0, h1, h2, h3]) ?_
    refine Or.inr (Or.inl ?_)
    simp only [List.getD_cons_zero]
    rintro (h | h | h | h) <;> omega

/-- C4: `deserialize` fails exactly when the type tag is unknown, the
declared length does not match the remaining bytes, or a SPARSE record
carries an index at or above 16384; on failure the target sketch is left
unchanged, and on success the result is determined solely by the input
bytes, independent of any prior state of the target. -/
theorem deserialize_spec (t1 t2 : HLLState) (bytes : List Nat)
    (hb : ∀ b ∈ bytes, b < 256) :
    ((deserialize t1 bytes).2 = false ↔ deserializeFailCond bytes) ∧
    ((deserialize t1 bytes).2 = false → (deserialize t1 bytes).1 = t1) ∧
    ((deserialize t1 bytes).2 = true →
      (deserialize t1 bytes).1 = (deserialize t2 bytes).1) := by
  have hiff := decodeSketch_none_iff bytes hb
  unfold deserialize
  cases hd : decodeSketch bytes with
  | none =>
    rw [hd] at hiff
    refine ⟨by simpa using hiff, fun _ => rfl, fun hc => absurd hc (by simp)⟩
  | some s =>
    have hcond : ¬ deserializeFailCond bytes := by
      intro hf
      rw [hiff.mpr hf] at hd
      exact absurd hd (by simp)
    exact ⟨by simpa using hcond, fun hf => absurd hf (by simp), fun _ => rfl⟩

theorem deserialize_spec_witness :
    (∀ b ∈ ([1, 1, 7, 0, 0, 0, 0, 0, 0, 0] : List Nat), b < 256) ∧
    (((deserialize emptyState [1, 1, 7, 0, 0, 0, 0, 0, 0, 0]).2 = false ↔
        deserializeFailCond [1, 1, 7, 0, 0, 0, 0, 0, 0, 0]) ∧
     ((deserialize emptyState [1, 1, 7, 0, 0, 0, 0, 0, 0, 0]).2 = false →
        (deserialize emptyState [1, 1, 7, 0, 0, 0, 0, 0, 0, 0]).1 = emptyState) ∧
     ((deserialize emptyState [1, 1, 7, 0, 0, 0, 0, 0, 0, 0]).2 = true →
        (deserialize emptyState [1, 1, 7, 0, 0, 0, 0, 0, 0, 0]).1 =
          (deserialize ⟨HLL_DATA_FULL, 0, none, some fun _ => 0⟩
            [1, 1, 7, 0, 0, 0, 0, 0, 0, 0]).1)) :=
  ⟨by decide,
    deserialize_spec emptyState ⟨HLL_DATA_FULL, 0, none, some fun _ => 0⟩
      [1, 1, 7, 0, 0, 0, 0, 0, 0, 0] (by decide)⟩
